import Mathlib

/-!
Verification of the batching-and-publish pipeline of the sensors-connectivity
repository: a shallow embedding of `src/feeders/datalog_feeder.py` and
`connectivity/src/feeders/frontier_datalog.py`, followed by theorems settling
the specification's claims about them.

External effects (the IPFS content store, the Temporal Cloud and Pinata pin
services, the Robonomics ledger client) are modelled by an outcome oracle: each
remote call's result (a returned value, or a raised exception) is an input of
the embedded function, and the function reports the resulting state, the
database contents, the trace of externally visible events, and the exception
(if any) that propagates uncaught out of the Python function.
-/

namespace DatalogFeederModel

/-- Modelled from the spec: the serializable record a `Measurement` yields via
`measurement_check()` (module `stations` is not part of the two source files);
per the spec it is the measurement's data record, carrying at least the
`timestamp` field that `_sort_payload` sorts on, plus the reading value. -/
structure MeasRecord where
  timestamp : Nat
  value : Int
deriving DecidableEq, Repr

/-- Modelled from the spec: a sensor `Measurement` (module `stations` is not in
the source files). Per the spec it carries a model identifier, a geographic
position, a timestamp, a reading value, and the station's `public` key, which
is both the visibility test (truthiness: non-empty) and the station grouping
key used by `_get_multihash`. -/
structure Measurement where
  public : String
  model : Nat
  geo_lat : Int
  geo_lon : Int
  timestamp : Nat
  value : Int
deriving DecidableEq, Repr

/-- Modelled from the spec: the excluded liveness/ping model identifier
`PING_MODEL` (module `drivers.ping` is not in the source files); its concrete
value is irrelevant to the claims, only its role as the excluded model class. -/
def PING_MODEL : Nat := 2

/-- Modelled from the spec: `measurement_check()` returns the measurement's
serializable data record (with its timestamp and reading). -/
def Measurement.measurement_check (m : Measurement) : MeasRecord :=
  ⟨m.timestamp, m.value⟩

/-- Modelled from the spec: a station record as delivered by the acquisition
layer; `DatalogFeeder.feed` reads its `measurement` attribute. -/
structure StationData where
  measurement : Measurement
deriving DecidableEq, Repr

/-- One station group of the payload dict built by `_get_multihash`:
`{"model": ..., "geo": ..., "measurements": [...]}`. -/
structure Group where
  model : Nat
  geo : String
  measurements : List MeasRecord
deriving DecidableEq, Repr

/-- The payload dict of `_get_multihash`, keyed by the station `public` key.
A Python `dict` preserves insertion order, so it is embedded as an association
list in insertion order. -/
abbrev Payload := List (String × Group)

/-- Format `"{},{}".format(m.geo_lat, m.geo_lon)` of `_get_multihash`. -/
def geoStr (m : Measurement) : String :=
  toString m.geo_lat ++ "," ++ toString m.geo_lon

/-- Ordered dict lookup: the value of the first entry with the given key
(`payload[k]` / `k in payload`). -/
def plookup (k : String) : Payload → Option Group
  | [] => none
  | (a, g) :: rest => if a = k then some g else plookup k rest

/-- One iteration of the payload-building loop of `_get_multihash`: if
`m.public` is already a key of the dict, append `m.measurement_check()` to that
entry's `measurements` in place; otherwise insert a fresh entry with `m`'s
model and geo at the end (where Python dict insertion puts a new key). -/
def payloadInsert (p : Payload) (m : Measurement) : Payload :=
  match p with
  | [] => [(m.public, Group.mk m.model (geoStr m) [m.measurement_check])]
  | (a, g) :: rest =>
      if a = m.public then
        (a, Group.mk g.model g.geo (g.measurements ++ [m.measurement_check])) :: rest
      else (a, g) :: payloadInsert rest m

/-- The payload dict `_get_multihash` builds by iterating the buffer (the
buffer is a Python `set`; the list argument is its iteration order). -/
def buildPayload (buf : List Measurement) : Payload :=
  buf.foldl payloadInsert []

/-- The sort key of `_sort_payload`: `lambda x: x["timestamp"]`. -/
def tsLe (a b : MeasRecord) : Prop :=
  a.timestamp ≤ b.timestamp

instance : DecidableRel tsLe := fun a b =>
  inferInstanceAs (Decidable (a.timestamp ≤ b.timestamp))

instance : IsTotal MeasRecord tsLe :=
  ⟨fun a b => Nat.le_total a.timestamp b.timestamp⟩

instance : IsTrans MeasRecord tsLe :=
  ⟨fun _ _ _ => Nat.le_trans⟩

/-- Model of `_sort_payload`: rebuilds the dict in the same key order, each group's
`measurements` sorted by timestamp.  Python's `sorted` is stable; Mathlib's
`insertionSort` with the non-strict key order has the same stable behaviour. -/
def sort_payload (data : Payload) : Payload :=
  data.map fun kv =>
    (kv.1, Group.mk kv.2.model kv.2.geo (List.insertionSort tsLe kv.2.measurements))

/-- Serialization of one measurement record (dict key order is field order). -/
def jsonOfMeas (r : MeasRecord) : String :=
  "\x7b\"timestamp\": " ++ toString r.timestamp ++
    ", \"value\": " ++ toString r.value ++ "\x7d"

/-- Serialization of one station group. -/
def jsonOfGroup (g : Group) : String :=
  "\x7b\"model\": " ++ toString g.model ++ ", \"geo\": \"" ++ g.geo ++
    "\", \"measurements\": [" ++
    String.intercalate ", " (g.measurements.map jsonOfMeas) ++ "]\x7d"

/-- Serialization `json.dumps(payload)`: keys emitted in the dict's insertion order
(`json.dumps` default, `sort_keys=False`). -/
def json_dumps (p : Payload) : String :=
  "\x7b" ++
    String.intercalate ", "
      (p.map fun kv => "\"" ++ kv.1 ++ "\": " ++ jsonOfGroup kv.2) ++
    "\x7d"

/-- The snapshot bytes `_get_multihash` writes to the temp file and hands to
`client.add`: the payload built from the buffer, sorted, serialized. -/
def snapshotBytes (buf : List Measurement) : String :=
  json_dumps (sort_payload (buildPayload buf))

/-- A row of the Submission Ledger Store (`utils.database`). -/
structure DbRecord where
  status : String
  hash : String
  created_at : Nat
  payload : String
deriving DecidableEq, Repr

/-- Modelled from the spec: `db.update_status(status, content_id)` of the
Submission Ledger Store (module `utils.database` is not in the source files);
per the spec it performs the one in-place status transition on the record(s)
whose content identifier matches. -/
def db_update_status (status h : String) (db : List DbRecord) : List DbRecord :=
  db.map fun r => if r.hash = h then DbRecord.mk status r.hash r.created_at r.payload else r

/-- The externally visible events of one `feed` call, in execution order. -/
inductive Event where
  /-- Call `client.add(temp.name)`: the content-store add call, with the bytes. -/
  | ipfsAdd (bytes : String)
  /-- Call `db.add_data(status, hash, time, payload)`: the Submission Record write. -/
  | dbAddData (status hash : String) (created_at : Nat) (payload : String)
  /-- The Temporal Cloud pin attempt (`requests.post` in `_pin_to_temporal`). -/
  | temporalRequest
  /-- The Pinata pin attempt (`pinata.pin_file_to_ipfs` in `_pin_to_pinata`). -/
  | pinataRequest
  /-- Log call `logging.warning(msg)`. -/
  | warning (msg : String)
  /-- Call `interface.record_datalog(ipfs_hash)`: the ledger record call. -/
  | ledgerRecord (hash : String)
  /-- Call `db.update_status(status, hash)`. -/
  | dbUpdateStatus (status hash : String)
  /-- Call `datalog.record(text)` of `FrontierFeeder.feed`. -/
  | frontierRecord (text : String)
deriving DecidableEq, Repr

/-- The configuration keys `datalog_feeder.py` reads. Python truthiness of the
credential strings is non-emptiness. -/
structure Config where
  datalog_enable : Bool
  dump_interval : Nat
  temporal_username : String
  temporal_password : String
  pinata_api : String
  pinata_secret : String
deriving DecidableEq, Repr

/-- The mutable instance state of `DatalogFeeder`: `last_time` and `buffer`
(the buffer, a Python `set`, is kept in iteration order without duplicates). -/
structure FeederState where
  last_time : Nat
  buffer : List Measurement
deriving DecidableEq, Repr

/-- The outcome oracle for one `feed` call: what each external call returns,
or the exception it raises. -/
structure Outcomes where
  /-- Result of `client.add`: the returned hash, or a raised exception. -/
  ipfs : Except String String
  /-- The `requests.post` interaction of `_pin_to_temporal`: the final HTTP
  status code, or a raised exception (connection error, bad token json…). -/
  temporal : Except String Nat
  /-- Result of `pinata.pin_file_to_ipfs` (with `pin_list`): success or raised. -/
  pinata : Except String Unit
  /-- Result of `interface.record_datalog`: the receipt, or a raised exception. -/
  ledger : Except String String
deriving Repr

/-- The result of one `feed` call: the instance state and database after it
(Python mutations persist even when an exception propagates), the event trace,
and the exception that propagates uncaught out of `feed`, when one does. -/
structure FeedResult where
  state : FeederState
  db : List DbRecord
  events : List Event
  raised : Option String
deriving DecidableEq, Repr

/-- Set insertion `self.buffer.add(m)` (no duplicates, order preserved). -/
def bufferAdd (b : List Measurement) (m : Measurement) : List Measurement :=
  if m ∈ b then b else b ++ [m]

/-- The filtering loop of `DatalogFeeder.feed`: add `d.measurement` when it is
`public` (truthy) and its model is not `PING_MODEL`. -/
def feedAddPhase (buffer : List Measurement) (data : List StationData) :
    List Measurement :=
  data.foldl
    (fun b d =>
      if d.measurement.public ≠ "" ∧ d.measurement.model ≠ PING_MODEL then
        bufferAdd b d.measurement
      else b)
    buffer

/-- Model of `_get_multihash(buf, db, endpoint)`: builds and sorts the payload, writes
the temp file, calls `client.add`; on success calls
`db.add_data("not sent", hash, time, payload)` and returns the hash.  If
`client.add` raises, the exception propagates and `db.add_data` is not
reached.  Returns (outcome carrying the hash and new database, events). -/
def _get_multihash (buf : List Measurement) (db : List DbRecord) (now : Nat)
    (ipfsResult : Except String String) :
    Except String (String × List DbRecord) × List Event :=
  let bytes := snapshotBytes buf
  match ipfsResult with
  | Except.error e => (Except.error e, [Event.ipfsAdd bytes])
  | Except.ok h =>
      (Except.ok (h, db ++ [DbRecord.mk "not sent" h now bytes]),
       [Event.ipfsAdd bytes, Event.dbAddData "not sent" h now bytes])

/-- Model of `DatalogFeeder._pin_to_temporal(file_path)`: only runs when both
credentials are truthy; the HTTP calls are NOT wrapped in `try/except`, so a
raised exception propagates to the caller (a non-200 status merely skips the
success log).  Returns (events, propagated exception if any). -/
def _pin_to_temporal (cfg : Config) (tr : Except String Nat) :
    List Event × Option String :=
  if cfg.temporal_username ≠ "" ∧ cfg.temporal_password ≠ "" then
    match tr with
    | Except.error e => ([Event.temporalRequest], some e)
    | Except.ok _ => ([Event.temporalRequest], none)
  else ([], none)

/-- Model of `_pin_to_pinata(file_path, config)`: only runs when `pinata_secret` is
truthy; the whole attempt is wrapped in `try/except Exception`, a failure being
logged as a warning.  It never raises. -/
def _pin_to_pinata (cfg : Config) (pr : Except String Unit) : List Event :=
  if cfg.pinata_secret ≠ "" then
    match pr with
    | Except.ok _ => [Event.pinataRequest]
    | Except.error e =>
        [Event.pinataRequest,
         Event.warning ("Failed while pining file to Pinata. Error: " ++ e)]
  else []

/-- Model of `DatalogFeeder.to_datalog(ipfs_hash)`: resets `last_time`, clears the
buffer, then calls `record_datalog` inside `try/except`; on success it calls
`db.update_status("sent", ipfs_hash)`, on a raised exception it logs a warning
and leaves the database untouched.  Returns (state, database, events). -/
def to_datalog (db : List DbRecord) (now : Nat) (lr : Except String String)
    (ipfs_hash : String) : FeederState × List DbRecord × List Event :=
  let st : FeederState := ⟨now, []⟩
  match lr with
  | Except.ok _ =>
      (st, db_update_status "sent" ipfs_hash db,
       [Event.ledgerRecord ipfs_hash, Event.dbUpdateStatus "sent" ipfs_hash])
  | Except.error e =>
      (st, db,
       [Event.ledgerRecord ipfs_hash,
        Event.warning
          ("Something went wrong during extrinsic submission to Robonomics: "
            ++ e)])

/-- Model of `DatalogFeeder.feed(data)`: filter-and-add every station measurement; when
the dump interval has elapsed and the buffer is non-empty, run
`_get_multihash`, `_pin_to_temporal`, `_pin_to_pinata`, `to_datalog` in that
order, stopping (with the exception propagating) where an uncaught exception
is raised.  Neither the `if self.buffer` else-branch nor the not-yet-time
branch touches `last_time` or the buffer (the resets are commented out in the
source). -/
def feed (cfg : Config) (st : FeederState) (db : List DbRecord)
    (data : List StationData) (now : Nat) (o : Outcomes) : FeedResult :=
  if cfg.datalog_enable then
    let buf := feedAddPhase st.buffer data
    let st1 : FeederState := ⟨st.last_time, buf⟩
    if cfg.dump_interval ≤ now - st1.last_time then
      if buf ≠ [] then
        match _get_multihash buf db now o.ipfs with
        | (Except.error e, ev1) => ⟨st1, db, ev1, some e⟩
        | (Except.ok (h, db1), ev1) =>
            match _pin_to_temporal cfg o.temporal with
            | (ev2, some e) => ⟨st1, db1, ev1 ++ ev2, some e⟩
            | (ev2, none) =>
                let ev3 := _pin_to_pinata cfg o.pinata
                let r4 := to_datalog db1 now o.ledger h
                ⟨r4.1, r4.2.1, ev1 ++ ev2 ++ ev3 ++ r4.2.2, none⟩
      else ⟨st1, db, [], none⟩
    else ⟨st1, db, [], none⟩
  else ⟨st, db, [], none⟩

end DatalogFeederModel

namespace FrontierFeederModel

open DatalogFeederModel

/-- One input item of `FrontierFeeder.feed` paired with the outcome of its
`datalog.record(f"{d.measurement}")` call: the receipt, or the raised
exception. -/
structure FrontierItem where
  measurement : String
  outcome : Except String String
deriving Repr

/-- Model of `FrontierFeeder.feed(data)`: when enabled, one `datalog.record` per item,
each wrapped in its own `try/except Exception`; a failure is logged as a
warning and the loop continues.  The function never raises. -/
def FrontierFeeder_feed (enable : Bool) (data : List FrontierItem) :
    List Event :=
  if enable then
    data.foldl
      (fun evs d =>
        match d.outcome with
        | Except.ok _ => evs ++ [Event.frontierRecord d.measurement]
        | Except.error e =>
            evs ++
              [Event.frontierRecord d.measurement,
               Event.warning
                 ("Frontier Datalog: Something went wrong during extrinsic submission to Robonomics: "
                   ++ e)])
      []
  else []

end FrontierFeederModel

namespace DatalogFeederModel

/-- Recognizer for warning-log events. -/
def Event.isWarning : Event → Bool
  | warning _ => true
  | _ => false

/-- Recognizer for the pin-attempt and ledger-step events (the steps claim C2
requires to come after the Submission Record write). -/
def Event.isPinOrLedger : Event → Bool
  | temporalRequest => true
  | pinataRequest => true
  | ledgerRecord _ => true
  | dbUpdateStatus _ _ => true
  | _ => false

/-- Recognizer for the frontier feeder's record-attempt events. -/
def Event.isFrontierRecord : Event → Bool
  | frontierRecord _ => true
  | _ => false

/-- Claim C9's description of the grouping, stated independently of the code:
the group for key `k` takes model and geo from the first measurement with that
key in iteration order, and collects every matching measurement's record in
order. -/
def firstEncounterGroup (k : String) (buf : List Measurement) : Option Group :=
  match buf.filter (fun m => m.public = k) with
  | [] => none
  | m :: ms =>
      some (Group.mk m.model (geoStr m) ((m :: ms).map Measurement.measurement_check))

/-- The station keys a buffer contributes in first-encounter (iteration)
order, skipping keys already `seen`. -/
def keysAfter (seen : List String) : List Measurement → List String
  | [] => []
  | m :: rest =>
      if m.public ∈ seen then keysAfter seen rest
      else m.public :: keysAfter (m.public :: seen) rest

/-- Sample public measurement of station X for the concrete runs below. -/
def sampleMeas : Measurement := ⟨"X", 1, 5, 6, 10, 100⟩

/-- Second sample public measurement, of station Y. -/
def sampleMeasY : Measurement := ⟨"Y", 1, 7, 8, 20, 200⟩

/-- Configuration with the datalog feeder enabled and no pin credentials. -/
def cfgNoPins : Config := ⟨true, 60, "", "", "", ""⟩

/-- Configuration with the datalog feeder enabled and both pin targets
configured. -/
def cfgAllPins : Config := ⟨true, 60, "user", "pass", "api", "secret"⟩

/-- Outcomes in which every external call succeeds. -/
def outcomesOk : Outcomes :=
  ⟨Except.ok "QmHash", Except.ok 200, Except.ok (), Except.ok "blk"⟩

/-- Outcomes in which the Temporal Cloud HTTP interaction raises. -/
def outcomesTemporalFail : Outcomes :=
  ⟨Except.ok "QmHash", Except.error "neterr", Except.ok (), Except.ok "blk"⟩

/-- Outcomes in which the content-store add raises. -/
def outcomesIpfsFail : Outcomes :=
  ⟨Except.error "adderr", Except.ok 200, Except.ok (), Except.ok "blk"⟩

/-- Snapshot bytes of the one-measurement buffer used by the concrete runs. -/
def sampleBytes : String := snapshotBytes (feedAddPhase [] [⟨sampleMeas⟩])

/-- The events that precede the ledger-record event in the concrete
all-services-succeed run of `feed` (used by claim C2's witness). -/
def samplePrefix : List Event :=
  [Event.ipfsAdd sampleBytes, Event.dbAddData "not sent" "QmHash" 100 sampleBytes]

end DatalogFeederModel

namespace FrontierFeederModel

open DatalogFeederModel

/-- The events one item of `FrontierFeeder.feed` produces: the record attempt,
followed by a warning when the call raised. -/
def itemEvents (d : FrontierItem) : List Event :=
  match d.outcome with
  | Except.ok _ => [Event.frontierRecord d.measurement]
  | Except.error e =>
      [Event.frontierRecord d.measurement,
       Event.warning
         ("Frontier Datalog: Something went wrong during extrinsic submission to Robonomics: "
           ++ e)]

/-- Recognizer for the items whose `datalog.record` call raised. -/
def failedItem (d : FrontierItem) : Bool :=
  match d.outcome with
  | Except.error _ => true
  | Except.ok _ => false

end FrontierFeederModel

namespace DatalogFeederModel

/-- Membership in the buffer after one `add` call: the element was already
there or is the one added. -/
theorem mem_bufferAdd (b : List Measurement) (x m : Measurement) :
    m ∈ bufferAdd b x ↔ m ∈ b ∨ m = x := by
  unfold bufferAdd
  split
  · constructor
    · exact Or.inl
    · rintro (h | rfl)
      · exact h
      · assumption
  · simp [or_comm]

/-- Unfolding of one step of the filtering loop of `feed`. -/
theorem feedAddPhase_cons (buffer : List Measurement) (d : StationData)
    (rest : List StationData) :
    feedAddPhase buffer (d :: rest) =
      feedAddPhase
        (if d.measurement.public ≠ "" ∧ d.measurement.model ≠ PING_MODEL then
          bufferAdd buffer d.measurement
        else buffer)
        rest := rfl

/-- Membership in the buffer after the filtering loop of `feed`: exactly the
prior elements plus the incoming measurements that pass the public/ping
filter. -/
theorem mem_feedAddPhase (buffer : List Measurement) (data : List StationData)
    (m : Measurement) :
    m ∈ feedAddPhase buffer data ↔
      m ∈ buffer ∨
        ((∃ d ∈ data, d.measurement = m) ∧ m.public ≠ "" ∧ m.model ≠ PING_MODEL) := by
  induction data generalizing buffer with
  | nil => simp [feedAddPhase]
  | cons d rest ih =>
      rw [feedAddPhase_cons]
      by_cases hc : d.measurement.public ≠ "" ∧ d.measurement.model ≠ PING_MODEL
      · rw [if_pos hc, ih, mem_bufferAdd]
        constructor
        · rintro ((hb | rfl) | hrest)
          · exact Or.inl hb
          · exact Or.inr ⟨⟨d, by simp, rfl⟩, hc⟩
          · exact Or.inr ⟨⟨hrest.1.choose, by simp [hrest.1.choose_spec.1],
              hrest.1.choose_spec.2⟩, hrest.2⟩
        · rintro (hb | ⟨⟨d', hd', rfl⟩, hf⟩)
          · exact Or.inl (Or.inl hb)
          · rcases List.mem_cons.mp hd' with rfl | hd'
            · exact Or.inl (Or.inr rfl)
            · exact Or.inr ⟨⟨d', hd', rfl⟩, hf⟩
      · rw [if_neg hc, ih]
        constructor
        · rintro (hb | ⟨⟨d', hd', rfl⟩, hf⟩)
          · exact Or.inl hb
          · exact Or.inr ⟨⟨d', List.mem_cons_of_mem _ hd', rfl⟩, hf⟩
        · rintro (hb | ⟨⟨d', hd', rfl⟩, hf⟩)
          · exact Or.inl hb
          · rcases List.mem_cons.mp hd' with rfl | hd'
            · exact absurd hf hc
            · exact Or.inr ⟨⟨d', hd', rfl⟩, hf⟩

/-- C6: a measurement is added to the buffer by `DatalogFeeder.feed`'s
filtering loop if and only if it is public (truthy `public` key) and its model
is not the excluded ping model; consequently, when the prior buffer contains
only such measurements, every measurement present at drain time is public and
non-ping. -/
theorem C6_buffer_filter (buffer : List Measurement) (data : List StationData) :
    (∀ m, m ∈ feedAddPhase buffer data ↔
      m ∈ buffer ∨
        ((∃ d ∈ data, d.measurement = m) ∧ m.public ≠ "" ∧ m.model ≠ PING_MODEL)) ∧
    ((∀ m ∈ buffer, m.public ≠ "" ∧ m.model ≠ PING_MODEL) →
      ∀ m ∈ feedAddPhase buffer data, m.public ≠ "" ∧ m.model ≠ PING_MODEL) := by
  refine ⟨mem_feedAddPhase buffer data, fun hpure m hm => ?_⟩
  rcases (mem_feedAddPhase buffer data m).mp hm with hb | ⟨_, hf⟩
  · exact hpure m hb
  · exact hf

/-- C5: `to_datalog` clears the buffer and resets the flush clock before the
ledger call; it calls `record_datalog` exactly once (no retry); the database is
updated to status sent exactly when the ledger call succeeded, and only for
that hash; and a raised ledger exception is caught, logged as a warning, and
leaves the database untouched. -/
theorem C5_ledger_status_transition (db : List DbRecord) (now : Nat)
    (lr : Except String String) (h : String) :
    (to_datalog db now lr h).1 = ⟨now, []⟩ ∧
    (to_datalog db now lr h).2.2.count (Event.ledgerRecord h) = 1 ∧
    ((to_datalog db now lr h).2.1 =
      match lr with
      | Except.ok _ => db_update_status "sent" h db
      | Except.error _ => db) ∧
    (∀ s hh, Event.dbUpdateStatus s hh ∈ (to_datalog db now lr h).2.2 →
      s = "sent" ∧ hh = h ∧ ∃ rec, lr = Except.ok rec) ∧
    (∀ e, lr = Except.error e →
      Event.warning
        ("Something went wrong during extrinsic submission to Robonomics: " ++ e)
        ∈ (to_datalog db now lr h).2.2) := by
  cases lr with
  | ok rec => simp [to_datalog, List.count_cons]
  | error e => simp [to_datalog, List.count_cons]

/-- C8: a `feed` call made before the dump interval has elapsed performs no
content-store, database, pin or ledger step (its event trace is empty), raises
nothing, leaves the database and `last_time` unchanged, and keeps the prior
buffer plus the newly filtered-in measurements. -/
theorem C8_no_flush_before_interval (cfg : Config) (st : FeederState)
    (db : List DbRecord) (data : List StationData) (now : Nat) (o : Outcomes)
    (henable : cfg.datalog_enable = true)
    (hearly : now - st.last_time < cfg.dump_interval) :
    feed cfg st db data now o =
      ⟨⟨st.last_time, feedAddPhase st.buffer data⟩, db, [], none⟩ := by
  simp [feed, henable, Nat.not_le.mpr hearly]

/-- Witness for C8 at a concrete early call. -/
theorem C8_witness :
    feed cfgNoPins ⟨0, []⟩ [] [⟨sampleMeas⟩] 30 outcomesOk =
      ⟨⟨0, feedAddPhase [] [⟨sampleMeas⟩]⟩, [], [], none⟩ :=
  C8_no_flush_before_interval cfgNoPins ⟨0, []⟩ [] [⟨sampleMeas⟩] 30 outcomesOk
    rfl (by decide)

/-- C7 (amended): when the content-store add raises during a due flush, the
exception propagates out of `feed`; no Submission Record is written
(`db.add_data` is not called — the database is unchanged), no pin or ledger
step runs (the only event is the failed add), the flush clock is not reset —
and the drained measurements are NOT lost: the buffer still holds them (it is
cleared only in `to_datalog`), so they are retried at the next flush. -/
theorem C7_amended_publish_failure (cfg : Config) (st : FeederState)
    (db : List DbRecord) (data : List StationData) (now : Nat) (o : Outcomes)
    (e : String)
    (henable : cfg.datalog_enable = true)
    (hdue : cfg.dump_interval ≤ now - st.last_time)
    (hbuf : feedAddPhase st.buffer data ≠ [])
    (hipfs : o.ipfs = Except.error e) :
    feed cfg st db data now o =
      ⟨⟨st.last_time, feedAddPhase st.buffer data⟩, db,
       [Event.ipfsAdd (snapshotBytes (feedAddPhase st.buffer data))], some e⟩ := by
  simp [feed, henable, hdue, hbuf, _get_multihash, hipfs]

/-- Witness for C7's amended theorem at a concrete failing-add run. -/
theorem C7_witness :
    feed cfgNoPins ⟨0, []⟩ [] [⟨sampleMeas⟩] 100 outcomesIpfsFail =
      ⟨⟨0, feedAddPhase [] [⟨sampleMeas⟩]⟩, [],
       [Event.ipfsAdd (snapshotBytes (feedAddPhase [] [⟨sampleMeas⟩]))],
       some "adderr"⟩ :=
  C7_amended_publish_failure cfgNoPins ⟨0, []⟩ [] [⟨sampleMeas⟩] 100
    outcomesIpfsFail "adderr" rfl (by decide) (by decide) rfl

/-- Counterexample to C7 as stated: in a concrete run whose content-store add
fails, the drained measurements are not lost — the buffer still holds the
measurement afterwards (ready for the next flush), while the claim asserts
they are lost for this cycle and not re-buffered.  (The exception also
propagates out of `feed`, and no Submission Record was created.) -/
theorem C7_counterexample :
    (feed cfgNoPins ⟨0, []⟩ [] [⟨sampleMeas⟩] 100 outcomesIpfsFail).state.buffer
        = [sampleMeas] ∧
    (feed cfgNoPins ⟨0, []⟩ [] [⟨sampleMeas⟩] 100 outcomesIpfsFail).raised
        = some "adderr" ∧
    (feed cfgNoPins ⟨0, []⟩ [] [⟨sampleMeas⟩] 100 outcomesIpfsFail).db = [] := by
  decide

end DatalogFeederModel

namespace DatalogFeederModel

/-- Filtering the warnings out of a Pinata pin attempt leaves at most the
request event, whatever the outcome was. -/
theorem pinata_filter (cfg : Config) (pr : Except String Unit) :
    (_pin_to_pinata cfg pr).filter (fun ev => !ev.isWarning) =
      if cfg.pinata_secret ≠ "" then [Event.pinataRequest] else [] := by
  unfold _pin_to_pinata
  split
  · cases pr <;> simp [Event.isWarning, List.filter]
  · simp

/-- C1 (amended): a Pinata pin failure is caught inside the attempt and logged
as a warning — it changes nothing of the resulting state, database, propagated
exception, or non-warning event trace (so the ledger record call still runs
and nothing propagates because of Pinata); the Temporal Cloud attempt, by
contrast, has no such handler (see the counterexample: its failure propagates
out of `feed`). -/
theorem C1_amended_pinata_isolated (cfg : Config) (st : FeederState)
    (db : List DbRecord) (data : List StationData) (now : Nat) (o : Outcomes)
    (e : String) :
    (_pin_to_pinata cfg (Except.error e) =
      if cfg.pinata_secret ≠ "" then
        [Event.pinataRequest,
         Event.warning ("Failed while pining file to Pinata. Error: " ++ e)]
      else []) ∧
    (feed cfg st db data now { o with pinata := Except.error e }).state =
      (feed cfg st db data now { o with pinata := Except.ok () }).state ∧
    (feed cfg st db data now { o with pinata := Except.error e }).db =
      (feed cfg st db data now { o with pinata := Except.ok () }).db ∧
    (feed cfg st db data now { o with pinata := Except.error e }).raised =
      (feed cfg st db data now { o with pinata := Except.ok () }).raised ∧
    (feed cfg st db data now { o with pinata := Except.error e }).events.filter
        (fun ev => !ev.isWarning) =
      (feed cfg st db data now { o with pinata := Except.ok () }).events.filter
        (fun ev => !ev.isWarning) := by
  refine ⟨by simp [_pin_to_pinata], ?_⟩
  obtain ⟨oi, ot, op, ol⟩ := o
  unfold feed
  by_cases hen : cfg.datalog_enable = true
  · simp only [hen, if_true]
    by_cases hdue : cfg.dump_interval ≤ now - st.last_time
    · simp only [if_pos hdue]
      by_cases hbuf : feedAddPhase st.buffer data ≠ []
      · simp only [if_pos hbuf]
        unfold _get_multihash
        cases oi with
        | error eI => simp
        | ok h =>
            simp only
            rcases hT : _pin_to_temporal cfg ot with ⟨ev2, oe⟩
            cases oe with
            | some eT => simp
            | none =>
                simp only [List.filter_cons, List.filter_append,
                  pinata_filter cfg (Except.error e), pinata_filter cfg (Except.ok ())]
                simp [Event.isWarning]
      · simp [hbuf]
    · simp [hdue]
  · simp [hen]

/-- Counterexample to C1 as stated: in a concrete run with both pin targets
configured, a raised exception in the Temporal Cloud pin attempt is not
caught — it propagates out of `feed`, and neither the Pinata pin attempt nor
the ledger record call is executed, while the claim asserts every pin failure
is caught, the other target still runs, and nothing propagates. -/
theorem C1_counterexample :
    (feed cfgAllPins ⟨0, []⟩ [] [⟨sampleMeas⟩] 100 outcomesTemporalFail).raised
        = some "neterr" ∧
    Event.pinataRequest ∉
      (feed cfgAllPins ⟨0, []⟩ [] [⟨sampleMeas⟩] 100 outcomesTemporalFail).events ∧
    Event.ledgerRecord "QmHash" ∉
      (feed cfgAllPins ⟨0, []⟩ [] [⟨sampleMeas⟩] 100 outcomesTemporalFail).events := by
  decide

/-- Decomposition helper: in a trace that starts with the content-store add
and the Submission Record write, anything that splits off a pin or ledger
event has the record write in the part before it. -/
theorem dbAdd_before (bytes h p : String) (t : Nat) (rest l1 l2 : List Event)
    (ev : Event)
    (hsplit : Event.ipfsAdd bytes :: Event.dbAddData "not sent" h t p :: rest =
      l1 ++ ev :: l2)
    (hpin : ev.isPinOrLedger = true) :
    Event.dbAddData "not sent" h t p ∈ l1 := by
  cases l1 with
  | nil =>
      rw [List.nil_append] at hsplit
      injection hsplit with h1 _
      rw [← h1] at hpin
      simp [Event.isPinOrLedger] at hpin
  | cons x l1' =>
      rw [List.cons_append] at hsplit
      injection hsplit with hx hrest
      cases l1' with
      | nil =>
          rw [List.nil_append] at hrest
          injection hrest with h2 _
          rw [← h2] at hpin
          simp [Event.isPinOrLedger] at hpin
      | cons y l1'' =>
          rw [List.cons_append] at hrest
          injection hrest with hy _
          rw [hy]
          exact List.mem_cons_of_mem x (List.mem_cons_self y l1'')

/-- Decomposition helper: the one-event trace of a failed content-store add
contains no pin or ledger event. -/
theorem single_not_pin (bytes : String) (l1 l2 : List Event) (ev : Event)
    (hsplit : [Event.ipfsAdd bytes] = l1 ++ ev :: l2)
    (hpin : ev.isPinOrLedger = true) : False := by
  cases l1 with
  | nil =>
      rw [List.nil_append] at hsplit
      injection hsplit with h1 _
      rw [← h1] at hpin
      simp [Event.isPinOrLedger] at hpin
  | cons x l1' =>
      rw [List.cons_append] at hsplit
      injection hsplit with _ hrest
      exact List.append_ne_nil_of_right_ne_nil l1' (List.cons_ne_nil ev l2) hrest.symm

/-- C2: in every execution of `feed`, any pin attempt or ledger step in the
event trace is strictly preceded by the Submission Record write
`db.add_data("not sent", hash, time, payload)` — the record is durably written
before any pin and before the ledger record call. -/
theorem C2_record_before_pin (cfg : Config) (st : FeederState)
    (db : List DbRecord) (data : List StationData) (now : Nat) (o : Outcomes)
    (l1 l2 : List Event) (ev : Event)
    (hsplit : (feed cfg st db data now o).events = l1 ++ ev :: l2)
    (hpin : ev.isPinOrLedger = true) :
    ∃ h t p, Event.dbAddData "not sent" h t p ∈ l1 := by
  obtain ⟨oi, ot, op, ol⟩ := o
  unfold feed at hsplit
  by_cases hen : cfg.datalog_enable = true
  · simp only [hen, if_true] at hsplit
    by_cases hdue : cfg.dump_interval ≤ now - st.last_time
    · simp only [if_pos hdue] at hsplit
      by_cases hbuf : feedAddPhase st.buffer data ≠ []
      · simp only [if_pos hbuf] at hsplit
        unfold _get_multihash at hsplit
        cases oi with
        | error eI =>
            simp only at hsplit
            exact (single_not_pin _ l1 l2 ev hsplit hpin).elim
        | ok h =>
            simp only at hsplit
            rcases hT : _pin_to_temporal cfg ot with ⟨ev2, oe⟩
            rw [hT] at hsplit
            cases oe with
            | some eT =>
                simp only [List.cons_append, List.nil_append] at hsplit
                exact ⟨h, now, snapshotBytes (feedAddPhase st.buffer data),
                  dbAdd_before _ _ _ _ _ l1 l2 ev hsplit hpin⟩
            | none =>
                simp only [List.cons_append, List.nil_append] at hsplit
                exact ⟨h, now, snapshotBytes (feedAddPhase st.buffer data),
                  dbAdd_before _ _ _ _ _ l1 l2 ev hsplit hpin⟩
      · simp only [if_neg hbuf] at hsplit
        exact absurd hsplit (by simp)
    · simp only [if_neg hdue] at hsplit
      exact absurd hsplit (by simp)
  · simp only [hen] at hsplit
    simp at hsplit

/-- Witness for C2 at a concrete all-services-succeed run, split at the
ledger-record event. -/
theorem C2_witness :
    ∃ h t p, Event.dbAddData "not sent" h t p ∈ samplePrefix :=
  C2_record_before_pin cfgNoPins ⟨0, []⟩ [] [⟨sampleMeas⟩] 100 outcomesOk
    samplePrefix [Event.dbUpdateStatus "sent" "QmHash"]
    (Event.ledgerRecord "QmHash") (by decide) rfl

end DatalogFeederModel

namespace DatalogFeederModel

/-- Lookup after one payload-building step: the matching entry gains the new
measurement record (keeping its model and geo), a missing key gains a fresh
entry from the measurement, and other keys are untouched. -/
theorem plookup_payloadInsert (p : Payload) (m : Measurement) (k : String) :
    plookup k (payloadInsert p m) =
      if m.public = k then
        match plookup k p with
        | some g =>
            some (Group.mk g.model g.geo (g.measurements ++ [m.measurement_check]))
        | none => some (Group.mk m.model (geoStr m) [m.measurement_check])
      else plookup k p := by
  induction p with
  | nil => by_cases h : m.public = k <;> simp [payloadInsert, plookup, h]
  | cons kg rest ih =>
      obtain ⟨a, g⟩ := kg
      unfold payloadInsert
      by_cases ham : a = m.public
      · by_cases hak : a = k
        · subst hak
          have hmk : m.public = a := ham.symm
          simp [plookup, hmk]
        · have hmk : ¬m.public = k := fun hh => hak (ham.trans hh)
          simp [plookup, ham, hak, hmk]
      · by_cases hak : a = k
        · subst hak
          have hmk : ¬m.public = a := fun hh => ham hh.symm
          simp [plookup, ham, hmk]
        · simp [plookup, ham, hak, ih]

/-- Keys after one payload-building step: unchanged for an existing key, the
new key appended at the end otherwise. -/
theorem keys_payloadInsert (p : Payload) (m : Measurement) :
    (payloadInsert p m).map Prod.fst =
      if m.public ∈ p.map Prod.fst then p.map Prod.fst
      else p.map Prod.fst ++ [m.public] := by
  induction p with
  | nil => simp [payloadInsert]
  | cons kg rest ih =>
      obtain ⟨a, g⟩ := kg
      unfold payloadInsert
      by_cases ham : a = m.public
      · simp [ham]
      · have : ¬m.public = a := fun hh => ham hh.symm
        by_cases hmem : m.public ∈ rest.map Prod.fst <;>
          simp [ham, this, hmem, ih]

/-- Unfolding of `firstEncounterGroup` when the head measurement matches. -/
theorem feg_cons_hit (k : String) (m : Measurement) (rest : List Measurement)
    (h : m.public = k) :
    firstEncounterGroup k (m :: rest) =
      some (Group.mk m.model (geoStr m)
        (m.measurement_check ::
          (rest.filter (fun m' => m'.public = k)).map Measurement.measurement_check)) := by
  simp [firstEncounterGroup, List.filter_cons, h]

/-- Unfolding of `firstEncounterGroup` when the head measurement misses. -/
theorem feg_cons_miss (k : String) (m : Measurement) (rest : List Measurement)
    (h : ¬m.public = k) :
    firstEncounterGroup k (m :: rest) = firstEncounterGroup k rest := by
  simp [firstEncounterGroup, List.filter_cons, h]

/-- A key has no first-encounter group exactly when no measurement carries it. -/
theorem feg_none_iff (k : String) (rest : List Measurement) :
    firstEncounterGroup k rest = none ↔
      rest.filter (fun m' => m'.public = k) = [] := by
  unfold firstEncounterGroup
  cases hf : rest.filter (fun m' => m'.public = k) <;> simp

/-- The measurement records of a first-encounter group are those of every
matching measurement, in order. -/
theorem feg_measurements (k : String) (rest : List Measurement) (g2 : Group)
    (h : firstEncounterGroup k rest = some g2) :
    g2.measurements =
      (rest.filter (fun m' => m'.public = k)).map Measurement.measurement_check := by
  unfold firstEncounterGroup at h
  cases hf : rest.filter (fun m' => m'.public = k) with
  | nil => rw [hf] at h; simp at h
  | cons a l =>
      rw [hf] at h
      simp only [Option.some.injEq] at h
      rw [← h]

/-- The payload-building fold, characterized: starting from payload `p`, the
entry for `k` keeps `p`'s model/geo when `p` already had the key (appending
the new records), and otherwise is the first-encounter group of the buffer. -/
theorem foldl_payloadInsert_plookup (buf : List Measurement) (p : Payload)
    (k : String) :
    plookup k (List.foldl payloadInsert p buf) =
      match plookup k p, firstEncounterGroup k buf with
      | none, og => og
      | some g, none => some g
      | some g, some g2 =>
          some (Group.mk g.model g.geo (g.measurements ++ g2.measurements)) := by
  induction buf generalizing p with
  | nil =>
      cases hp : plookup k p <;> simp [firstEncounterGroup, hp]
  | cons m rest ih =>
      rw [List.foldl_cons, ih (payloadInsert p m), plookup_payloadInsert]
      by_cases hmk : m.public = k
      · rw [if_pos hmk]
        cases hp : plookup k p with
        | none =>
            cases hf : firstEncounterGroup k rest with
            | none =>
                have hfil := (feg_none_iff k rest).mp hf
                rw [feg_cons_hit k m rest hmk, hfil]
                simp
            | some g2 =>
                rw [feg_cons_hit k m rest hmk, ← feg_measurements k rest g2 hf]
                simp
        | some g =>
            cases hf : firstEncounterGroup k rest with
            | none =>
                have hfil := (feg_none_iff k rest).mp hf
                rw [feg_cons_hit k m rest hmk, hfil]
                simp
            | some g2 =>
                rw [feg_cons_hit k m rest hmk, ← feg_measurements k rest g2 hf]
                simp
      · rw [if_neg hmk, feg_cons_miss k m rest hmk]

/-- C9: for every buffer and station key, the group `_get_multihash` builds is
exactly the first-encounter group: its model and geo come solely from the
first measurement with that key in iteration order, later matching
measurements contributing only their measurement records, appended in order. -/
theorem C9_first_encounter_group (buf : List Measurement) (k : String) :
    plookup k (buildPayload buf) = firstEncounterGroup k buf := by
  rw [buildPayload, foldl_payloadInsert_plookup buf [] k]
  cases hf : firstEncounterGroup k buf <;> simp [plookup]

end DatalogFeederModel

namespace DatalogFeederModel

/-- Unfolding of one step of `keysAfter`. -/
theorem keysAfter_cons (seen : List String) (m : Measurement)
    (rest : List Measurement) :
    keysAfter seen (m :: rest) =
      if m.public ∈ seen then keysAfter seen rest
      else m.public :: keysAfter (m.public :: seen) rest := rfl

/-- Only membership of the seen set matters to `keysAfter`. -/
theorem keysAfter_congr (buf : List Measurement) (seen1 seen2 : List String)
    (h : ∀ k, k ∈ seen1 ↔ k ∈ seen2) :
    keysAfter seen1 buf = keysAfter seen2 buf := by
  induction buf generalizing seen1 seen2 with
  | nil => rfl
  | cons m rest ih =>
      rw [keysAfter_cons, keysAfter_cons]
      by_cases hm : m.public ∈ seen1
      · rw [if_pos hm, if_pos ((h m.public).mp hm), ih seen1 seen2 h]
      · rw [if_neg hm, if_neg (fun hh => hm ((h m.public).mpr hh))]
        congr 1
        exact ih _ _ (fun k => by simp [h k])

/-- The keys of the payload-building fold: the starting keys followed by the
buffer's unseen keys in first-encounter order. -/
theorem keys_foldl_payloadInsert (buf : List Measurement) (p : Payload) :
    (List.foldl payloadInsert p buf).map Prod.fst =
      p.map Prod.fst ++ keysAfter (p.map Prod.fst) buf := by
  induction buf generalizing p with
  | nil => simp [keysAfter]
  | cons m rest ih =>
      rw [List.foldl_cons, ih (payloadInsert p m), keys_payloadInsert,
        keysAfter_cons]
      by_cases hm : m.public ∈ p.map Prod.fst
      · rw [if_pos hm, if_pos hm]
      · rw [if_neg hm, if_neg hm, List.append_assoc, List.singleton_append]
        congr 2
        exact keysAfter_congr rest _ _ (fun k => by simp [or_comm])

/-- First-encounter key lists never repeat a key nor revisit a seen one. -/
theorem keysAfter_nodup (buf : List Measurement) (seen : List String) :
    (keysAfter seen buf).Nodup ∧ ∀ k ∈ keysAfter seen buf, k ∉ seen := by
  induction buf generalizing seen with
  | nil => simp [keysAfter]
  | cons m rest ih =>
      rw [keysAfter_cons]
      by_cases hm : m.public ∈ seen
      · rw [if_pos hm]
        exact ih seen
      · rw [if_neg hm]
        obtain ⟨hnd, hnotin⟩ := ih (m.public :: seen)
        refine ⟨List.nodup_cons.mpr ⟨?_, hnd⟩, ?_⟩
        · intro hmem
          exact hnotin m.public hmem (List.mem_cons_self _ _)
        · intro k hk
          rcases List.mem_cons.mp hk with rfl | hk'
          · exact hm
          · exact fun hks => hnotin k hk' (List.mem_cons_of_mem _ hks)

/-- Sorting the payload leaves the keys and their order untouched. -/
theorem keys_sort_payload (p : Payload) :
    (sort_payload p).map Prod.fst = p.map Prod.fst := by
  unfold sort_payload
  rw [List.map_map]
  rfl

/-- The payload keys are the buffer's keys in first-encounter order. -/
theorem keys_buildPayload (buf : List Measurement) :
    (buildPayload buf).map Prod.fst = keysAfter [] buf := by
  rw [buildPayload, keys_foldl_payloadInsert]
  simp

/-- C3 (amended): the snapshot's station keys appear in first-encounter
(iteration) order, not in sorted order — so while each group's measurements
are canonically sorted by timestamp, the bytes are canonical only for a fixed
iteration order, and different iteration orders of the same measurement set
may produce different bytes (see the counterexample). -/
theorem C3_first_encounter_key_order (buf : List Measurement) :
    (sort_payload (buildPayload buf)).map Prod.fst = keysAfter [] buf := by
  rw [keys_sort_payload, keys_buildPayload]

/-- Counterexample to C3 as stated: two buffers holding the same set of two
measurements (a permutation of one another), iterated in different orders,
produce different snapshot bytes — the encoding is not canonical across
iteration orders, because station keys are not sorted. -/
theorem C3_counterexample :
    List.Perm [sampleMeas, sampleMeasY] [sampleMeasY, sampleMeas] ∧
    snapshotBytes [sampleMeas, sampleMeasY] ≠
      snapshotBytes [sampleMeasY, sampleMeas] := by
  decide

/-- C4: in the sorted payload built from any buffer, every station group's
measurement sequence is non-decreasing in timestamp (each consecutive pair
satisfies the order), and the station keys of the built snapshot contain no
duplicate — each key appears exactly once. -/
theorem C4_sorted_groups_unique_keys (buf : List Measurement) :
    (∀ k g, (k, g) ∈ sort_payload (buildPayload buf) →
        List.Chain' (fun a b => a.timestamp ≤ b.timestamp) g.measurements) ∧
    ((sort_payload (buildPayload buf)).map Prod.fst).Nodup := by
  constructor
  · intro k g hmem
    unfold sort_payload at hmem
    obtain ⟨⟨k0, g0⟩, hmem0, heq⟩ := List.mem_map.mp hmem
    cases heq
    exact (List.sorted_insertionSort tsLe g0.measurements).chain'
  · rw [keys_sort_payload, keys_buildPayload]
    exact (keysAfter_nodup buf []).1

end DatalogFeederModel

namespace FrontierFeederModel

open DatalogFeederModel

/-- Unfolding of an ok item's events. -/
theorem itemEvents_ok (d : FrontierItem) (r : String)
    (h : d.outcome = Except.ok r) :
    itemEvents d = [Event.frontierRecord d.measurement] := by
  simp [itemEvents, h]

/-- Unfolding of a failed item's events. -/
theorem itemEvents_error (d : FrontierItem) (e : String)
    (h : d.outcome = Except.error e) :
    itemEvents d =
      [Event.frontierRecord d.measurement,
       Event.warning
         ("Frontier Datalog: Something went wrong during extrinsic submission to Robonomics: "
           ++ e)] := by
  simp [itemEvents, h]

/-- The accumulator of `FrontierFeeder.feed`'s loop concatenates each item's
events in order. -/
theorem frontier_foldl (data : List FrontierItem) (acc : List Event) :
    data.foldl
      (fun evs d =>
        match d.outcome with
        | Except.ok _ => evs ++ [Event.frontierRecord d.measurement]
        | Except.error e =>
            evs ++
              [Event.frontierRecord d.measurement,
               Event.warning
                 ("Frontier Datalog: Something went wrong during extrinsic submission to Robonomics: "
                   ++ e)])
      acc = acc ++ data.foldr (fun d r => itemEvents d ++ r) [] := by
  induction data generalizing acc with
  | nil => simp
  | cons d rest ih =>
      cases hd : d.outcome with
      | ok r => simp [List.foldl, hd, ih, itemEvents]
      | error e => simp [List.foldl, hd, ih, itemEvents]

/-- The enabled frontier feeder's trace is the concatenation of its items'
event lists. -/
theorem frontier_feed_eq (data : List FrontierItem) :
    FrontierFeeder_feed true data =
      data.foldr (fun d r => itemEvents d ++ r) [] := by
  unfold FrontierFeeder_feed
  rw [if_pos rfl]
  exact (frontier_foldl data []).trans (by simp)

/-- C10: when enabled, `FrontierFeeder.feed` attempts exactly one ledger
record per input item, in order, whatever each item's outcome is (so one
item's failure never prevents the later submissions); each failed item
produces exactly one warning (failures are caught and logged), and the loop
never propagates an exception — it always returns its event list. -/
theorem C10_frontier_per_item_isolation (data : List FrontierItem) :
    ((FrontierFeeder_feed true data).filter Event.isFrontierRecord =
      data.map fun d => Event.frontierRecord d.measurement) ∧
    ((FrontierFeeder_feed true data).filter Event.isWarning).length =
      (data.filter failedItem).length ∧
    (∀ d e, d ∈ data → d.outcome = Except.error e →
      Event.warning
        ("Frontier Datalog: Something went wrong during extrinsic submission to Robonomics: "
          ++ e) ∈ FrontierFeeder_feed true data) := by
  rw [frontier_feed_eq]
  refine ⟨?_, ?_, ?_⟩
  · induction data with
    | nil => simp
    | cons d rest ih =>
        rw [List.foldr_cons, List.filter_append, ih]
        cases hd : d.outcome with
        | ok r =>
            rw [itemEvents_ok d r hd]
            simp [Event.isFrontierRecord]
        | error e =>
            rw [itemEvents_error d e hd]
            simp [Event.isFrontierRecord, Event.isWarning, List.filter]
  · induction data with
    | nil => simp
    | cons d rest ih =>
        rw [List.foldr_cons, List.filter_append, List.length_append, ih]
        cases hd : d.outcome with
        | ok r =>
            rw [itemEvents_ok d r hd]
            simp [Event.isWarning, List.filter, failedItem, hd]
        | error e =>
            rw [itemEvents_error d e hd]
            simp [Event.isWarning, Event.isFrontierRecord, List.filter, failedItem,
              hd, Nat.add_comm]
  · intro d e hd he
    induction data with
    | nil => simp at hd
    | cons d0 rest ih =>
        rcases List.mem_cons.mp hd with rfl | hmem
        · rw [List.foldr_cons, itemEvents_error d e he]
          simp
        · simp only [List.foldr_cons, List.mem_append]
          exact Or.inr (ih hmem)

end FrontierFeederModel
